import Mathlib

set_option maxRecDepth 100000

/-!
Verification development for `jvo_axiio_driver.py`, the pulse-timing synthesis
and validation engine of a register-mapped FPGA pulse generator driving a
10-stage Marx generator.

Modelling conventions:
* Python floats (times in seconds, the clock period) are modelled as exact
  rationals `ℚ`; Python's `round` (nearest, ties to even) is `pyRound`.
* `math.log2` applied to an integer cycle count is translated arithmetically:
  `log2 n > 32 ↔ n > 2^32`, `log2 n ≥ 32 ↔ n ≥ 2^32`, and `log2 n` raises a
  math-domain `ValueError` for `n ≤ 0`, modelled by the error `mathDomain`.
* Each `raise`/`assert` site of the source is one constructor of `MarxErr`.
* Register writes (`write_reg`) are recorded as `(register index, value)`
  pairs in the order the source issues them; a run of the builder returns
  the write trace together with `none` (success) or `some err` (the
  exception that aborted it).  The `hasattr(self, 'io')` guard is modelled
  as taken (the hardware-attached path), since the claims are about the
  register program.  `write_reg`'s own bound check (`reg > 41`) is vacuous
  for the registers the builder emits (0..39, 40, 41) and is not modelled
  as a separate failure inside the write loop.
-/

/-- One constructor per `raise`/`assert` site in `jvo_axiio_driver.py`. -/
inductive MarxErr where
  | tooManyChannels
  | wrongChannelCount
  | mathDomain
  | overflow
  | negativeDuration
  | deadTimeTooShort
  | widthBelowClockPeriod
  | lastValueExceedsRepRate
  | insufficientChargeTime
  | startAfterStop
  | invalidRepRate
  | startExceedsPeriod
  | stopExceedsPeriod
  | stopBeforeStart
  | zeroWidthWindow
  | internalInvariant
  | ioInitLength
  | assertionFailed
  | indexError
  deriving DecidableEq

deriving instance DecidableEq for Except

/-- Python's `round`: nearest integer, ties to the even integer.
(`Rat.floor` is used rather than `Int.floor` so the kernel can evaluate it;
`pyRound_eq` below restates it through `Int.floor`.) -/
def pyRound (x : ℚ) : Int :=
  let f := x.floor
  let r := x - f
  if r < 1/2 then f
  else if 1/2 < r then f + 1
  else if f % 2 = 0 then f else f + 1

/-- `CLOCK_PERIOD_DEFAULT = 8e-9` (seconds per cycle). -/
def defaultPeriod : ℚ := 8 / 1000000000

/-- `DEAD_TIME_MIN = 100e-9`. -/
def deadTimeMin : ℚ := 100 / 1000000000

/-- `JvoAxiioDriver.__init__` leaves `self.rep_rate_cycles = -1`. -/
def initialLatch : Int := -1

/-- The body of `check_output_cycles` after the rep-rate argument has been
resolved: the disabled-sentinel test followed by the four ordering checks,
in source order (`jvo_axiio_driver.py` lines 131-142).  `.ok false` is the
source's `return False` ("output disabled"), `.ok true` its `return True`. -/
def checkWindow (rep start stop : Int) : Except MarxErr Bool :=
  if (stop > rep ∧ start > rep) ∨ (stop < 0 ∧ start < 0) then .ok false
  else if start > rep then .error .startExceedsPeriod
  else if stop > rep then .error .stopExceedsPeriod
  else if stop < start then .error .stopBeforeStart
  else if stop = start then .error .zeroWidthWindow
  else .ok true

/-- `JvoAxiioDriver.check_output_cycles(start, stop, rep_rate_cycles=0)`.
`latch` is the instance attribute `self.rep_rate_cycles` consulted when the
`rep_rate_cycles` argument is not positive. -/
def checkOutputCycles (latch start stop rep : Int) : Except MarxErr Bool :=
  if rep ≤ 0 then
    if latch > 0 then checkWindow latch start stop
    else .error .invalidRepRate
  else checkWindow rep start stop

/-- `JvoAxiioDriver.set_rep_rate_cycles`: the `log2(num_cycles) > 32` overflow
test, then latch the value and write register 41.  Returns the new latch and
the write trace. -/
def setRepRateCycles (n : Int) : Except MarxErr (Int × List (Nat × Int)) :=
  if n ≤ 0 then .error .mathDomain
  else if n > 4294967296 then .error .overflow
  else .ok (n, [(41, n)])

/-- `JvoAxiioDriver.set_rep_rate_seconds`: negative check, quantization by
`round(seconds / clock_period)`, the same `log2 > 32` overflow test, then
delegation to `set_rep_rate_cycles`. -/
def setRepRateSeconds (p s : ℚ) : Except MarxErr (Int × List (Nat × Int)) :=
  if s < 0 then .error .negativeDuration
  else
    let n := pyRound (s / p)
    if n ≤ 0 then .error .mathDomain
    else if n > 4294967296 then .error .overflow
    else setRepRateCycles n

/-- The loop state of `_make_marx`'s per-channel pass (lines 220-269):
the running minimum pulse width, the earliest pulse start seen (`first`),
the 20-entry initial-state list `io_init` (one entry per sub-output,
indices 0..9 pulse, 10..19 charge), and the accumulated per-channel
cycle pairs (`channel_list`). -/
structure LoopState where
  minWidth : ℚ
  first : ℚ
  ioInit : List Nat
  chans : List (Int × Int)
  deriving DecidableEq

/-- Loop state on entry to the channel loop: `first = min_width = rep_rate`,
`io_init = [1] * NUM_OUTPUT`, no channel pairs recorded yet. -/
def initState (rr : ℚ) : LoopState :=
  { minWidth := rr, first := rr, ioInit := List.replicate 20 1, chans := [] }

/-- The disabled-sentinel test of `_make_marx` line 240-241: a channel is
processed as "not disabled" iff both values are at most `rep_rate` or both
are negative. -/
def enabledCond (o : ℚ × ℚ) (rr : ℚ) : Prop :=
  (o.1 ≤ rr ∧ o.2 ≤ rr) ∨ (o.1 < 0 ∧ o.2 < 0)

instance (o : ℚ × ℚ) (rr : ℚ) : Decidable (enabledCond o rr) := by
  unfold enabledCond; infer_instance

/-- Tail of a channel-loop iteration (lines 262-269): record the quantized
pair, re-check it with `check_output_cycles(…, rep_rate_cycles)` (which can
itself raise), and set the channel's `io_init` entry to 1 when the check
reports the output disabled. -/
def recordChannel (latch rc : Int) (i : Nat) (s e : Int) (mw fi : ℚ)
    (st : LoopState) : Except MarxErr LoopState :=
  match checkOutputCycles latch s e rc with
  | .error er => .error er
  | .ok b =>
    .ok { minWidth := mw, first := fi,
          ioInit := if b then st.ioInit else st.ioInit.set i 1,
          chans := st.chans ++ [(s, e)] }

/-- One iteration of `_make_marx`'s channel loop (lines 239-269), for the
channel with 0-based index `i` and second-domain window `o`. -/
def processChannel (p : ℚ) (latch : Int) (rr : ℚ) (rc : Int) (i : Nat)
    (o : ℚ × ℚ) (st : LoopState) : Except MarxErr LoopState :=
  if enabledCond o rr then
    let width := o.2 - o.1
    let mw := if width < st.minWidth then width else st.minWidth
    if mw < p then .error .widthBelowClockPeriod
    else
      let fi := if o.1 < st.first then o.1 else st.first
      if o.2 > rr ∧ o.1 < rr then .error .lastValueExceedsRepRate
      else if o.1 < rr / 2 then .error .insufficientChargeTime
      else if o.2 < o.1 then .error .startAfterStop
      else recordChannel latch rc i (pyRound (o.1 / p)) (pyRound (o.2 / p)) mw fi st
  else
    recordChannel latch rc i (rc + 2) (rc + 2) st.minWidth st.first st

/-- The channel loop of `_make_marx`, folded over the channel list with its
0-based index. -/
def processChannels (p : ℚ) (latch : Int) (rr : ℚ) (rc : Int) :
    List (ℚ × ℚ) → Nat → LoopState → Except MarxErr LoopState
  | [], _, st => .ok st
  | o :: rest, i, st =>
    match processChannel p latch rr rc i o st with
    | .error e => .error e
    | .ok st1 => processChannels p latch rr rc rest (i + 1) st1

/-- The fully validated program assembled by `_make_marx` before the
`hasattr(self, 'io')` write block: repetition-rate cycles, per-channel
cycle pairs, `io_init`, and the shared charge window. -/
structure MarxProgram where
  repCycles : Int
  chans : List (Int × Int)
  ioInit : List Nat
  chargeStart : Int
  chargeStop : Int
  deriving DecidableEq

/-- Validation phase of `JvoMarxGenerator._make_marx` (lines 216-281):
channel-count checks, rep-rate quantization with the `log2 ≥ 32` overflow
test, dead-time quantization and minimum check, the per-channel loop, and
the shared charge window `(dead_time_cycles, first_cycles − dead_time_cycles)`. -/
def makeMarxChecked (p : ℚ) (latch : Int) (chs : List (ℚ × ℚ)) (dt rr : ℚ) :
    Except MarxErr MarxProgram :=
  if chs.length > 10 then .error .tooManyChannels
  else if chs.length ≠ 10 then .error .wrongChannelCount
  else
    let rc := pyRound (rr / p)
    if rc ≤ 0 then .error .mathDomain
    else if rc ≥ 4294967296 then .error .overflow
    else
      let dtc := pyRound (dt / p)
      if dt < deadTimeMin then .error .deadTimeTooShort
      else
        match processChannels p latch rr rc chs 0 (initState rr) with
        | .error e => .error e
        | .ok st =>
          .ok { repCycles := rc, chans := st.chans, ioInit := st.ioInit,
                chargeStart := dtc,
                chargeStop := pyRound (st.first / p) - dtc }

/-- `int(''.join(io_init), 2)`: the io-init list read as a binary numeral,
entry 0 the most significant bit. -/
def ioBits (l : List Nat) : Int :=
  l.foldl (fun a b => 2 * a + (b : Int)) 0

/-- The write loop of `_make_marx` (lines 303-305): for each channel, the
`a` sub-output pair then the shared charge pair on the `b` sub-output,
each preceded by the `check_output_cycles` re-check of `set_output_cycles`
(with the default argument 0, hence against the latched rep rate).
Returns the writes issued before any exception, and the exception. -/
def writeChannels (latch : Int) (chans : List (Int × Int)) (cs ce : Int)
    (i : Nat) : List (Nat × Int) × Option MarxErr :=
  match chans with
  | [] => ([], none)
  | c :: rest =>
    match checkOutputCycles latch c.1 c.2 0 with
    | .error e => ([], some e)
    | .ok _ =>
      match checkOutputCycles latch cs ce 0 with
      | .error e => ([(4 * i, c.1), (4 * i + 1, c.2)], some e)
      | .ok _ =>
        let r := writeChannels latch rest cs ce (i + 1)
        ((4 * i, c.1) :: (4 * i + 1, c.2) :: (4 * i + 2, cs) :: (4 * i + 3, ce)
          :: r.1, r.2)

/-- The `if hasattr(self, 'io')` block of `_make_marx` (lines 294-306): the
charge-half consistency assert, `set_io_init` (length check then register 40),
`set_rep_rate_cycles` (the `log2 > 32` test again, latch update, register 41),
then the per-channel write loop against the just-latched rep rate. -/
def applyProgram (pr : MarxProgram) : List (Nat × Int) × Option MarxErr :=
  if pr.ioInit.drop 10 ≠ List.replicate 10 1 then ([], some .internalInvariant)
  else if pr.ioInit.length ≠ 20 then ([], some .ioInitLength)
  else
    let v := ioBits pr.ioInit
    if pr.repCycles ≤ 0 then ([(40, v)], some .mathDomain)
    else if pr.repCycles > 4294967296 then ([(40, v)], some .overflow)
    else
      let r := writeChannels pr.repCycles pr.chans pr.chargeStart pr.chargeStop 0
      ((40, v) :: (41, pr.repCycles) :: r.1, r.2)

/-- `JvoMarxGenerator._make_marx`: validation phase, then (on the
hardware-attached path) the register-write block.  Result: the ordered
write trace and the exception that aborted the call, if any. -/
def makeMarx (p : ℚ) (latch : Int) (chs : List (ℚ × ℚ)) (dt rr : ℚ) :
    List (Nat × Int) × Option MarxErr :=
  match makeMarxChecked p latch chs dt rr with
  | .error e => ([], some e)
  | .ok pr => applyProgram pr

/-- Resolution of `marx_sync`'s `delays_begin` argument (lines 320-324):
Python truthiness (`None` or `[]` fall back to `[0] * num_channels`), the
length assert, and the entrywise `≤ 0` assert. -/
def resolveDelays (nc : Nat) (d : Option (List ℚ)) : Except MarxErr (List ℚ) :=
  match d with
  | none => .ok (List.replicate nc 0)
  | some l =>
    if l.isEmpty then .ok (List.replicate nc 0)
    else if l.length ≠ nc then .error .assertionFailed
    else if ¬ l.all (fun x => x ≤ 0) then .error .assertionFailed
    else .ok l

/-- Resolution of `marx_sync`'s `delays_end` argument (lines 325-329): same
asserts, but a falsy value falls back to the resolved `delays_begin`. -/
def resolveDelaysEnd (nc : Nat) (d : Option (List ℚ)) (dbv : List ℚ) :
    Except MarxErr (List ℚ) :=
  match d with
  | none => .ok dbv
  | some l =>
    if l.isEmpty then .ok dbv
    else if l.length ≠ nc then .error .assertionFailed
    else if ¬ l.all (fun x => x ≤ 0) then .error .assertionFailed
    else .ok l

/-- The channel windows built by `marx_sync` (lines 320-334): active channels
get `[rep_rate − pulse_length + delays_begin[i], rep_rate + delays_end[i]]`,
the rest the sentinel `(rep_rate + 2, rep_rate + 2)`.  For
`num_channels > 10` the source's `channels[i] = …` raises `IndexError`. -/
def marxSyncChannels (pl rr : ℚ) (nc : Nat) (db de : Option (List ℚ)) :
    Except MarxErr (List (ℚ × ℚ)) :=
  match resolveDelays nc db with
  | .error e => .error e
  | .ok dbv =>
    match resolveDelaysEnd nc de dbv with
    | .error e => .error e
    | .ok dev =>
      if nc > 10 then .error .indexError
      else .ok ((List.range 10).map fun i =>
        if i < nc then (rr - pl + dbv.getD i 0, rr + dev.getD i 0)
        else (rr + 2, rr + 2))

/-- The channel windows built by `marx_delta` (lines 349-359), with
`j = num_channels − i` and `change` defaulting (by Python truthiness, so
also for an explicit `0`) to `shortest_length / 2`. -/
def marxDeltaChannels (sl rr : ℚ) (nc : Nat) (change : Option ℚ) :
    Except MarxErr (List (ℚ × ℚ)) :=
  let ch := match change with
    | none => sl / 2
    | some c => if c = 0 then sl / 2 else c
  if nc > 10 then .error .indexError
  else .ok ((List.range 10).map fun i =>
    if i < nc then
      (rr - ch * ((nc : ℚ) - i - 1) - sl - 2 * i * ch,
       rr - ch * ((nc : ℚ) - i - 1))
    else (rr + 2, rr + 2))

/-- The channel windows built by `marx_one` (lines 371-380): the argument is
decremented to a 0-based index *before* the range assert
`0 < channel < NUM_CHANNELS`; the selected channel gets
`[rep_rate − pulse_length, rep_rate]`, every other one the sentinel
`(rep_rate + 2, rep_rate + 2)`. -/
def marxOneChannels (pl rr : ℚ) (channel : Int) : Except MarxErr (List (ℚ × ℚ)) :=
  let c := channel - 1
  if 0 < c ∧ c < 10 then
    .ok ((List.range 10).map fun i : Nat =>
      if (i : Int) = c then (rr - pl, rr) else (rr + 2, rr + 2))
  else .error .assertionFailed

/-- The channel windows built by `marx_sequence` (lines 393-403), with
`j = num_channels − i` and `time_between` defaulting (by truthiness) to
`pulse_length`.  Note the disabled sentinel here is `rep_rate * 2`,
not `rep_rate + 2`. -/
def marxSequenceChannels (pl rr : ℚ) (nc : Nat) (tb : Option ℚ) :
    Except MarxErr (List (ℚ × ℚ)) :=
  let t := match tb with
    | none => pl
    | some x => if x = 0 then pl else x
  if nc > 10 then .error .indexError
  else .ok ((List.range 10).map fun i =>
    if i < nc then
      (rr - t * ((nc : ℚ) - i - 1) - pl * ((nc : ℚ) - i),
       rr - t * ((nc : ℚ) - i - 1) - pl * ((nc : ℚ) - i - 1))
    else (rr * 2, rr * 2))

/-- `JvoMarxGenerator.marx_sync`: build the windows, then `_make_marx`. -/
def marxSyncRun (p : ℚ) (latch : Int) (pl dt rr : ℚ) (nc : Nat)
    (db de : Option (List ℚ)) : List (Nat × Int) × Option MarxErr :=
  match marxSyncChannels pl rr nc db de with
  | .error e => ([], some e)
  | .ok chs => makeMarx p latch chs dt rr

/-- `JvoMarxGenerator.marx_one`: build the windows, then `_make_marx`. -/
def marxOneRun (p : ℚ) (latch : Int) (pl dt rr : ℚ) (channel : Int) :
    List (Nat × Int) × Option MarxErr :=
  match marxOneChannels pl rr channel with
  | .error e => ([], some e)
  | .ok chs => makeMarx p latch chs dt rr

/-- The cycle pair `_make_marx` records for one channel: the quantized
window when the channel is not disabled, the fixed sentinel
`(rep_rate_cycles + 2, rep_rate_cycles + 2)` otherwise. -/
def chanPair (p rr : ℚ) (rc : Int) (o : ℚ × ℚ) : Int × Int :=
  if enabledCond o rr then (pyRound (o.1 / p), pyRound (o.2 / p))
  else (rc + 2, rc + 2)

/-- One step of the running minimum that `_make_marx` keeps in `first`:
updated (to the smaller start) only by channels in the not-disabled branch. -/
def stepFirst (rr : ℚ) (f : ℚ) (o : ℚ × ℚ) : ℚ :=
  if enabledCond o rr then (if o.1 < f then o.1 else f) else f

/-- The earliest not-disabled pulse start, initialized to `rep_rate`:
the value `first` holds after `_make_marx`'s channel loop. -/
def firstEnabledStart (rr : ℚ) (chs : List (ℚ × ℚ)) : ℚ :=
  chs.foldl (stepFirst rr) rr

/-- `pyRound` through the ambient `Int.floor`. -/
theorem pyRound_eq (x : ℚ) :
    pyRound x =
      if x - ⌊x⌋ < 1/2 then ⌊x⌋
      else if 1/2 < x - ⌊x⌋ then ⌊x⌋ + 1
      else if ⌊x⌋ % 2 = 0 then ⌊x⌋ else ⌊x⌋ + 1 := by
  have h : x.floor = ⌊x⌋ := by rw [Rat.floor_def', ← Rat.floor_def]
  unfold pyRound
  rw [h]

theorem set_replicate_self {α : Type} (a : α) :
    ∀ (n i : Nat), (List.replicate n a).set i a = List.replicate n a
  | 0, _ => rfl
  | n + 1, 0 => by simp [List.replicate_succ]
  | n + 1, i + 1 => by
    simp [List.replicate_succ, List.set, set_replicate_self a n i]

theorem recordChannel_ok {latch rc : Int} {i : Nat} {s e : Int} {mw fi : ℚ}
    {st st1 : LoopState} (h : recordChannel latch rc i s e mw fi st = .ok st1) :
    st1.minWidth = mw ∧ st1.first = fi ∧ st1.chans = st.chans ++ [(s, e)] ∧
    (st1.ioInit = st.ioInit ∨ st1.ioInit = st.ioInit.set i 1) := by
  unfold recordChannel at h
  split at h
  · exact absurd h (by simp)
  · injection h with h1
    subst h1
    refine ⟨rfl, rfl, rfl, ?_⟩
    rename_i b _
    cases b <;> simp

theorem processChannel_ok {p : ℚ} {latch : Int} {rr : ℚ} {rc : Int} {i : Nat}
    {o : ℚ × ℚ} {st st1 : LoopState}
    (h : processChannel p latch rr rc i o st = .ok st1) :
    st1.chans = st.chans ++ [chanPair p rr rc o] ∧
    st1.first = stepFirst rr st.first o ∧
    (st1.ioInit = st.ioInit ∨ st1.ioInit = st.ioInit.set i 1) := by
  unfold processChannel at h
  by_cases he : enabledCond o rr
  · rw [if_pos he] at h
    simp only [] at h
    repeat'
      first
      | exact Except.noConfusion h
      | split at h
    all_goals
      obtain ⟨_, h2, h3, h4⟩ := recordChannel_ok h
      exact ⟨by rw [h3, chanPair, if_pos he],
             by rw [h2, stepFirst, if_pos he]; split <;> simp_all,
             h4⟩
  · rw [if_neg he] at h
    obtain ⟨_, h2, h3, h4⟩ := recordChannel_ok h
    exact ⟨by rw [h3, chanPair, if_neg he], by rw [h2, stepFirst, if_neg he], h4⟩

theorem processChannels_ok {p : ℚ} {latch : Int} {rr : ℚ} {rc : Int} :
    ∀ (chs : List (ℚ × ℚ)) (i : Nat) (st st1 : LoopState),
    processChannels p latch rr rc chs i st = .ok st1 →
    st1.chans = st.chans ++ chs.map (chanPair p rr rc) ∧
    st1.first = chs.foldl (stepFirst rr) st.first ∧
    (st.ioInit = List.replicate 20 1 → st1.ioInit = List.replicate 20 1)
  | [], i, st, st1 => by
    intro h
    injection h with h1
    subst h1
    simp
  | o :: rest, i, st, st1 => by
    intro h
    unfold processChannels at h
    split at h
    · exact absurd h (by simp)
    · rename_i st2 heq
      obtain ⟨e1, e2, e3⟩ := processChannel_ok heq
      obtain ⟨f1, f2, f3⟩ := processChannels_ok rest (i + 1) st2 st1 h
      refine ⟨?_, ?_, ?_⟩
      · rw [f1, e1]
        simp
      · rw [f2, e2]
        simp [List.foldl_cons]
      · intro hio
        apply f3
        rcases e3 with h' | h'
        · rw [h', hio]
        · rw [h', hio, set_replicate_self]

theorem checkWindow_error {rep s e : Int} {err : MarxErr}
    (h : checkWindow rep s e = .error err) :
    err = .startExceedsPeriod ∨ err = .stopExceedsPeriod ∨
    err = .stopBeforeStart ∨ err = .zeroWidthWindow := by
  unfold checkWindow at h
  repeat'
    first
    | exact Except.noConfusion h
    | split at h
  all_goals
    injection h with h1
    subst h1
    tauto

theorem checkOutputCycles_error {latch s e r : Int} {err : MarxErr}
    (h : checkOutputCycles latch s e r = .error err) :
    err = .invalidRepRate ∨ err = .startExceedsPeriod ∨ err = .stopExceedsPeriod ∨
    err = .stopBeforeStart ∨ err = .zeroWidthWindow := by
  unfold checkOutputCycles at h
  split at h
  · split at h
    · exact .inr (checkWindow_error h)
    · injection h with h1
      subst h1
      tauto
  · exact .inr (checkWindow_error h)

theorem writeChannels_error {latch cs ce : Int} :
    ∀ (chans : List (Int × Int)) (i : Nat) (err : MarxErr),
    (writeChannels latch chans cs ce i).2 = some err →
    err = .invalidRepRate ∨ err = .startExceedsPeriod ∨ err = .stopExceedsPeriod ∨
    err = .stopBeforeStart ∨ err = .zeroWidthWindow
  | [], i, err => by
    intro h
    exact absurd h (by simp [writeChannels])
  | c :: rest, i, err => by
    intro h
    rcases hc1 : checkOutputCycles latch c.1 c.2 0 with e1 | b1 <;>
      rcases hc2 : checkOutputCycles latch cs ce 0 with e2 | b2 <;>
      simp only [writeChannels, hc1, hc2] at h
    · injection h with h1
      subst h1
      exact checkOutputCycles_error hc1
    · injection h with h1
      subst h1
      exact checkOutputCycles_error hc1
    · injection h with h1
      subst h1
      exact checkOutputCycles_error hc2
    · exact writeChannels_error rest (i + 1) err h

theorem writeChannels_mem {latch cs ce : Int} :
    ∀ (chans : List (Int × Int)) (i j : Nat),
    (writeChannels latch chans cs ce i).2 = none → j < chans.length →
    (4 * (i + j) + 2, cs) ∈ (writeChannels latch chans cs ce i).1 ∧
    (4 * (i + j) + 3, ce) ∈ (writeChannels latch chans cs ce i).1
  | [], _, j => by
    intro _ hj
    exact absurd hj (Nat.not_lt_zero j)
  | c :: rest, i, j => by
    intro h hj
    rcases hc1 : checkOutputCycles latch c.1 c.2 0 with e1 | b1 <;>
      rcases hc2 : checkOutputCycles latch cs ce 0 with e2 | b2 <;>
      simp only [writeChannels, hc1, hc2] at h ⊢
    · exact absurd h (by simp)
    · exact absurd h (by simp)
    · exact absurd h (by simp)
    · match j with
      | 0 =>
        exact ⟨List.Mem.tail _ (List.Mem.tail _ (List.Mem.head _)),
               List.Mem.tail _ (List.Mem.tail _ (List.Mem.tail _ (List.Mem.head _)))⟩
      | k + 1 =>
        obtain ⟨m1, m2⟩ := writeChannels_mem rest (i + 1) k h (by simpa using hj)
        rw [show (i + 1) + k = i + (k + 1) from by omega] at m1 m2
        refine ⟨?_, ?_⟩ <;>
          exact List.mem_cons_of_mem _ (List.mem_cons_of_mem _
            (List.mem_cons_of_mem _ (List.mem_cons_of_mem _ (by assumption))))

theorem makeMarxChecked_ok {p : ℚ} {latch : Int} {chs : List (ℚ × ℚ)} {dt rr : ℚ}
    {pr : MarxProgram} (h : makeMarxChecked p latch chs dt rr = .ok pr) :
    chs.length = 10 ∧ 0 < pr.repCycles ∧ pr.repCycles < 4294967296 ∧
    pr.repCycles = pyRound (rr / p) ∧ pr.chargeStart = pyRound (dt / p) ∧
    ∃ st, processChannels p latch rr (pyRound (rr / p)) chs 0 (initState rr) = .ok st ∧
      pr.chans = st.chans ∧ pr.ioInit = st.ioInit ∧
      pr.chargeStop = pyRound (st.first / p) - pyRound (dt / p) := by
  unfold makeMarxChecked at h
  split at h
  · exact Except.noConfusion h
  rename_i c1
  split at h
  · exact Except.noConfusion h
  rename_i c2
  simp only [] at h
  split at h
  · exact Except.noConfusion h
  rename_i c3
  split at h
  · exact Except.noConfusion h
  rename_i c4
  split at h
  · exact Except.noConfusion h
  rename_i c5
  split at h
  · exact Except.noConfusion h
  rename_i st heq
  injection h with h1
  subst h1
  exact ⟨by omega, by simpa using c3, by simpa using c4, rfl, rfl,
         st, heq, rfl, rfl, rfl⟩

theorem applyProgram_none {pr : MarxProgram} (h : (applyProgram pr).2 = none) :
    (applyProgram pr).1 = (40, ioBits pr.ioInit) :: (41, pr.repCycles)
      :: (writeChannels pr.repCycles pr.chans pr.chargeStart pr.chargeStop 0).1 ∧
    (writeChannels pr.repCycles pr.chans pr.chargeStart pr.chargeStop 0).2 = none := by
  unfold applyProgram at h ⊢
  split at h
  · exact absurd h (by simp)
  rename_i c1
  split at h
  · exact absurd h (by simp)
  rename_i c2
  simp only [] at h
  split at h
  · exact absurd h (by simp)
  rename_i c3
  split at h
  · exact absurd h (by simp)
  rename_i c4
  rw [if_neg c1, if_neg c2]
  simp only []
  rw [if_neg c3, if_neg c4]
  exact ⟨rfl, h⟩

theorem pyRound_pos_half {x : ℚ} (h : 0 < pyRound x) : 1/2 ≤ x := by
  rw [pyRound_eq] at h
  have hfl : (⌊x⌋ : ℚ) ≤ x := Int.floor_le x
  split_ifs at h with h1 h2 h3
  · have h5 : (1 : ℤ) ≤ ⌊x⌋ := h
    have h6 : (1 : ℚ) ≤ (⌊x⌋ : ℚ) := by exact_mod_cast h5
    linarith
  · have h5 : (0 : ℤ) ≤ ⌊x⌋ := by omega
    have h6 : (0 : ℚ) ≤ (⌊x⌋ : ℚ) := by exact_mod_cast h5
    linarith
  · have h5 : (1 : ℤ) ≤ ⌊x⌋ := h
    have h6 : (1 : ℚ) ≤ (⌊x⌋ : ℚ) := by exact_mod_cast h5
    linarith
  · have h4 : x - ⌊x⌋ = 1/2 := le_antisymm (not_lt.mp h2) (not_lt.mp h1)
    have h5 : (0 : ℤ) ≤ ⌊x⌋ := by omega
    have h6 : (0 : ℚ) ≤ (⌊x⌋ : ℚ) := by exact_mod_cast h5
    linarith

theorem recordChannel_error {latch rc : Int} {i : Nat} {s e : Int} {mw fi : ℚ}
    {st : LoopState} {err : MarxErr}
    (h : recordChannel latch rc i s e mw fi st = .error err) :
    err = .invalidRepRate ∨ err = .startExceedsPeriod ∨ err = .stopExceedsPeriod ∨
    err = .stopBeforeStart ∨ err = .zeroWidthWindow := by
  unfold recordChannel at h
  split at h
  · rename_i e1 heq
    injection h with h1
    subst h1
    exact checkOutputCycles_error heq
  · exact Except.noConfusion h

theorem processChannel_ne_lastValue {p : ℚ} {latch : Int} {rr : ℚ} {rc : Int}
    {i : Nat} {o : ℚ × ℚ} {st : LoopState} (hrr : 0 < rr)
    (h : processChannel p latch rr rc i o st = .error .lastValueExceedsRepRate) :
    False := by
  unfold processChannel at h
  by_cases he : enabledCond o rr
  · rw [if_pos he] at h
    simp only [] at h
    repeat' split at h
    all_goals try exact absurd (recordChannel_error h) (by simp)
    all_goals try simp at h
    all_goals
      rename_i hcond
      rcases he with ⟨ha, hb⟩ | ⟨ha, hb⟩
      · exact absurd hcond.1 (not_lt.mpr hb)
      · linarith [hcond.1]
  · rw [if_neg he] at h
    exact absurd (recordChannel_error h) (by simp)

theorem processChannels_ne_lastValue {p : ℚ} {latch : Int} {rr : ℚ} {rc : Int}
    (hrr : 0 < rr) :
    ∀ (chs : List (ℚ × ℚ)) (i : Nat) (st : LoopState),
    processChannels p latch rr rc chs i st ≠ .error .lastValueExceedsRepRate
  | [], i, st => by simp [processChannels]
  | o :: rest, i, st => by
    intro h
    unfold processChannels at h
    split at h
    · rename_i e heq
      injection h with h1
      subst h1
      exact processChannel_ne_lastValue hrr heq
    · rename_i st2 heq
      exact processChannels_ne_lastValue hrr rest (i + 1) st2 h

theorem applyProgram_ne_lastValue (pr : MarxProgram) :
    (applyProgram pr).2 ≠ some .lastValueExceedsRepRate := by
  intro h
  unfold applyProgram at h
  split at h
  · simp at h
  split at h
  · simp at h
  simp only [] at h
  split at h
  · simp at h
  split at h
  · simp at h
  · exact absurd (writeChannels_error _ _ _ h) (by simp)

theorem applyProgram_err {pr : MarxProgram} {e : MarxErr}
    (h1 : 0 < pr.repCycles) (h2 : pr.repCycles ≤ 4294967296)
    (h : (applyProgram pr).2 = some e) :
    ((e = .internalInvariant ∨ e = .ioInitLength) ∧ (applyProgram pr).1 = [])
    ∨ (e = .invalidRepRate ∨ e = .startExceedsPeriod ∨ e = .stopExceedsPeriod ∨
       e = .stopBeforeStart ∨ e = .zeroWidthWindow) := by
  unfold applyProgram at h ⊢
  split at h
  · rename_i c1
    simp at h
    rw [if_pos c1]
    exact .inl ⟨.inl h.symm, rfl⟩
  rename_i c1
  split at h
  · rename_i c2
    simp at h
    rw [if_neg c1, if_pos c2]
    exact .inl ⟨.inr h.symm, rfl⟩
  rename_i c2
  simp only [] at h
  split at h
  · rename_i c3
    exact absurd c3 (by omega)
  rename_i c3
  split at h
  · rename_i c4
    exact absurd c4 (by omega)
  · exact .inr (writeChannels_error _ _ _ h)

theorem foldFirst_const {rr : ℚ} :
    ∀ (chs : List (ℚ × ℚ)) (f : ℚ), (∀ o ∈ chs, ¬ enabledCond o rr) →
    chs.foldl (stepFirst rr) f = f
  | [], _, _ => rfl
  | o :: rest, f, h => by
    have h1 : ¬ enabledCond o rr := h o (List.mem_cons_self o rest)
    simp only [List.foldl_cons, stepFirst, if_neg h1]
    exact foldFirst_const rest f (fun x hx => h x (List.mem_cons_of_mem o hx))

/-- C2: for a positive `rep_rate_cycles` argument, `check_output_cycles`
first returns `Disabled` (`.ok false`) exactly on the sentinel condition
`(stop > rep ∧ start > rep) ∨ (stop < 0 ∧ start < 0)`, and only otherwise
runs, in order, the start-bound, stop-bound, ordering and zero-width
checks, finally returning `Enabled` (`.ok true`); in particular
`start = stop = rep + 2` yields `Disabled`, never an ordering error. -/
theorem claim_C2_validator_order (latch start stop rep : Int) (h : 0 < rep) :
    checkOutputCycles latch start stop rep =
      (if (stop > rep ∧ start > rep) ∨ (stop < 0 ∧ start < 0) then .ok false
       else if start > rep then .error .startExceedsPeriod
       else if stop > rep then .error .stopExceedsPeriod
       else if stop < start then .error .stopBeforeStart
       else if stop = start then .error .zeroWidthWindow
       else .ok true)
    ∧ checkOutputCycles latch (rep + 2) (rep + 2) rep = .ok false := by
  constructor
  · unfold checkOutputCycles
    rw [if_neg (by omega)]
    rfl
  · unfold checkOutputCycles checkWindow
    rw [if_neg (by omega), if_pos (Or.inl ⟨by omega, by omega⟩)]

theorem claim_C2_witness : checkOutputCycles (-1) 7 7 5 = .ok false :=
  (claim_C2_validator_order (-1) 0 0 5 (by norm_num)).2

/-- C8: with `rep_rate_cycles ≤ 0` (in particular the default argument 0),
`check_output_cycles` validates against the latched rate when that is
positive and fails `InvalidRepRateError` otherwise; on a fresh driver the
latch is `-1`, so every such call fails; a successful
`set_rep_rate_cycles n` latches the positive value `n`. -/
theorem claim_C8_latched_rep_rate :
    (∀ latch s e r : Int, r ≤ 0 → latch > 0 →
        checkOutputCycles latch s e r = checkWindow latch s e)
    ∧ (∀ latch s e r : Int, r ≤ 0 → ¬ latch > 0 →
        checkOutputCycles latch s e r = .error .invalidRepRate)
    ∧ (∀ s e r : Int, r ≤ 0 →
        checkOutputCycles initialLatch s e r = .error .invalidRepRate)
    ∧ (∀ n : Int, ∀ x, setRepRateCycles n = .ok x → 0 < x.1 ∧ x.1 = n) := by
  refine ⟨?_, ?_, ?_, ?_⟩
  · intro latch s e r hr hl
    unfold checkOutputCycles
    rw [if_pos hr, if_pos hl]
  · intro latch s e r hr hl
    unfold checkOutputCycles
    rw [if_pos hr, if_neg hl]
  · intro s e r hr
    unfold checkOutputCycles initialLatch
    rw [if_pos hr, if_neg (by omega)]
  · intro n x h
    unfold setRepRateCycles at h
    split at h
    · exact absurd h (by simp)
    · split at h
      · exact absurd h (by simp)
      · injection h with h1
        subst h1
        refine ⟨by omega, rfl⟩

theorem claim_C8_witness : checkOutputCycles initialLatch 1 2 0 = .error .invalidRepRate :=
  claim_C8_latched_rep_rate.2.2.1 1 2 0 (by norm_num)

/-- C10: a quantized cycle count of exactly zero makes the `log2` overflow
test ill-defined: `set_rep_rate_seconds`, `set_rep_rate_cycles(0)` and a
build whose rep rate rounds to zero cycles all raise the math-domain error,
not `NegativeDurationError` or `OverflowError`. -/
theorem claim_C10_log2_domain :
    (∀ p s : ℚ, 0 ≤ s → pyRound (s / p) = 0 →
        setRepRateSeconds p s = .error .mathDomain)
    ∧ setRepRateCycles 0 = .error .mathDomain
    ∧ (∀ (p : ℚ) (latch : Int) (chs : List (ℚ × ℚ)) (dt rr : ℚ),
        chs.length = 10 → pyRound (rr / p) = 0 →
        makeMarx p latch chs dt rr = ([], some .mathDomain)) := by
  refine ⟨?_, by rfl, ?_⟩
  · intro p s hs h0
    unfold setRepRateSeconds
    rw [if_neg (not_lt.mpr hs)]
    simp only [h0]
    rfl
  · intro p latch chs dt rr hlen h0
    unfold makeMarx makeMarxChecked
    simp only [hlen, h0]
    rfl

theorem claim_C10_witness : setRepRateSeconds defaultPeriod 0 = .error .mathDomain :=
  claim_C10_log2_domain.1 defaultPeriod 0 le_rfl (by with_unfolding_all rfl)

/-- C3 (failing input): at `seconds = (2^32 − 1) × period` the conversion
succeeds, as claimed — but at `seconds = 2^32 × period`, strictly above the
claimed maximum, the `log2(cycles) > 32` test still passes (`log2 2^32 = 32`)
and the 33-bit count `2^32` is accepted and written, contradicting both the
claim and the source's own error message naming `(2^32 − 1) × period` as the
maximum. -/
theorem claim_C3_boundary_bug :
    setRepRateSeconds defaultPeriod (4294967295 * defaultPeriod)
      = .ok (4294967295, [(41, 4294967295)])
    ∧ setRepRateSeconds defaultPeriod (4294967296 * defaultPeriod)
      = .ok (4294967296, [(41, 4294967296)])
    ∧ (4294967295 : ℚ) * defaultPeriod < 4294967296 * defaultPeriod := by
  refine ⟨by with_unfolding_all rfl, by with_unfolding_all rfl, ?_⟩
  have h : (0 : ℚ) < defaultPeriod := by norm_num [defaultPeriod]
  exact (mul_lt_mul_right h).mpr (by norm_num)

/-- C4 (counterexample): `marx_one` with `channel = 10` passes the range
assert (claimed to fail), while `channel = 1` fails it (claimed to pass). -/
theorem claim_C4_counterexample :
    (∃ l, marxOneChannels 1 1 10 = .ok l)
    ∧ marxOneChannels 1 1 1 = .error .assertionFailed :=
  ⟨⟨(List.range 10).map fun i =>
      if (i : Int) = 9 then ((0 : ℚ), 1) else (3, 3),
    by with_unfolding_all rfl⟩,
   by with_unfolding_all rfl⟩

/-- C4 (amended): because the argument is decremented before the assert
`0 < channel < 10`, `marx_one` accepts exactly the channels
`1 < channel < 11`, i.e. 2..10: the first channel is rejected and the
tenth accepted. -/
theorem claim_C4_channel_range (pl rr : ℚ) (c : Int) :
    (∃ l, marxOneChannels pl rr c = .ok l) ↔ 1 < c ∧ c < 11 := by
  unfold marxOneChannels
  constructor
  · rintro ⟨l, h⟩
    by_cases hc : 0 < c - 1 ∧ c - 1 < 10
    · omega
    · rw [if_neg hc] at h
      exact absurd h (by simp)
  · intro hc
    rw [if_pos (by omega : 0 < c - 1 ∧ c - 1 < 10)]
    exact ⟨_, rfl⟩

/-- C6: on every successful build, the shared charge window
`(dead_time_cycles, first_cycles − dead_time_cycles)` — with `first` the
minimum start over not-disabled channels, initialized to `rep_rate` (so with
no enabled channel `first` is `rep_rate` itself) — is written to the `b`
sub-output registers `4·i+2`/`4·i+3` of every channel `i`. -/
theorem claim_C6_charge_window (p : ℚ) (latch : Int) (chs : List (ℚ × ℚ))
    (dt rr : ℚ) (h : (makeMarx p latch chs dt rr).2 = none) :
    (∀ i : Nat, i < 10 →
      (4 * i + 2, pyRound (dt / p)) ∈ (makeMarx p latch chs dt rr).1 ∧
      (4 * i + 3, pyRound (firstEnabledStart rr chs / p) - pyRound (dt / p))
        ∈ (makeMarx p latch chs dt rr).1)
    ∧ ((∀ o ∈ chs, ¬ enabledCond o rr) → firstEnabledStart rr chs = rr) := by
  refine ⟨?_, fun hall => foldFirst_const chs rr hall⟩
  intro i hi
  rcases hck : makeMarxChecked p latch chs dt rr with e | pr
  · unfold makeMarx at h
    rw [hck] at h
    simp at h
  · have hm : makeMarx p latch chs dt rr = applyProgram pr := by
      unfold makeMarx
      rw [hck]
    obtain ⟨hlen, hrc0, hrc1, hrcEq, hcsEq, st, hps, hchansEq, hioEq, hceEq⟩ :=
      makeMarxChecked_ok hck
    obtain ⟨htr, hwnone⟩ := applyProgram_none (hm ▸ h)
    obtain ⟨hchans, hfirst, hio⟩ := processChannels_ok chs 0 (initState rr) st hps
    have hfs : st.first = firstEnabledStart rr chs := by
      rw [hfirst]
      rfl
    have hlen10 : pr.chans.length = 10 := by
      rw [hchansEq, hchans]
      simp [initState, hlen]
    obtain ⟨m1, m2⟩ := writeChannels_mem pr.chans 0 i hwnone (by omega)
    rw [Nat.zero_add] at m1 m2
    rw [hm, htr, ← hfs, ← hceEq, ← hcsEq]
    exact ⟨List.mem_cons_of_mem _ (List.mem_cons_of_mem _ m1),
           List.mem_cons_of_mem _ (List.mem_cons_of_mem _ m2)⟩

theorem makeMarxChecked_ne_lastValue {p : ℚ} {latch : Int} {chs : List (ℚ × ℚ)}
    {dt rr : ℚ} (hp : 0 < p) :
    makeMarxChecked p latch chs dt rr ≠ .error .lastValueExceedsRepRate := by
  intro h
  unfold makeMarxChecked at h
  split at h
  · simp at h
  split at h
  · simp at h
  simp only [] at h
  split at h
  · simp at h
  rename_i c3
  split at h
  · simp at h
  split at h
  · simp at h
  split at h
  · rename_i e heq
    injection h with h1
    subst h1
    have hq : 0 < pyRound (rr / p) := by omega
    have hhalf : 1/2 ≤ rr / p := pyRound_pos_half hq
    have hrr : 0 < rr := by
      have h0 : 0 < rr / p := lt_of_lt_of_le (by norm_num) hhalf
      have h1 := mul_pos h0 hp
      rwa [div_mul_cancel₀ _ (ne_of_gt hp)] at h1
    exact processChannels_ne_lastValue hrr chs 0 (initState rr) heq
  · exact Except.noConfusion h

/-- C9: in the non-disabled branch with a nonnegative rep rate, the
`LastValueExceedsRepRateError` guard `stop > rep_rate ∧ start < rep_rate`
is unsatisfiable — so it coincides (both sides false) with the claim's
`stop > rep_rate ∧ start ≤ rep_rate` — and no builder call with a positive
clock period can fail with this error: the branch is dead code. -/
theorem claim_C9_last_value_unreachable :
    (∀ (o : ℚ × ℚ) (rr : ℚ), 0 ≤ rr → enabledCond o rr → ¬ (o.2 > rr ∧ o.1 < rr))
    ∧ (∀ (o : ℚ × ℚ) (rr : ℚ), 0 ≤ rr → enabledCond o rr →
        ((o.2 > rr ∧ o.1 < rr) ↔ (o.2 > rr ∧ o.1 ≤ rr)))
    ∧ (∀ (p : ℚ) (latch : Int) (chs : List (ℚ × ℚ)) (dt rr : ℚ), 0 < p →
        (makeMarx p latch chs dt rr).2 ≠ some .lastValueExceedsRepRate) := by
  have key : ∀ (o : ℚ × ℚ) (rr : ℚ), 0 ≤ rr → enabledCond o rr → ¬ o.2 > rr := by
    rintro o rr h0 (⟨ha, hb⟩ | ⟨ha, hb⟩) hgt
    · exact absurd hgt (not_lt.mpr hb)
    · linarith
  refine ⟨fun o rr h0 he hc => key o rr h0 he hc.1,
          fun o rr h0 he => ⟨fun hc => absurd hc.1 (key o rr h0 he),
                             fun hc => absurd hc.1 (key o rr h0 he)⟩, ?_⟩
  intro p latch chs dt rr hp h
  rcases hck : makeMarxChecked p latch chs dt rr with e | pr
  · have hm : makeMarx p latch chs dt rr = ([], some e) := by
      unfold makeMarx
      rw [hck]
    rw [hm] at h
    simp at h
    subst h
    exact makeMarxChecked_ne_lastValue hp hck
  · have hm : makeMarx p latch chs dt rr = applyProgram pr := by
      unfold makeMarx
      rw [hck]
    rw [hm] at h
    exact applyProgram_ne_lastValue pr h

theorem claim_C9_witness :
    (makeMarx defaultPeriod (-1) (List.replicate 10 ((1:ℚ)/1000000, 1/500000))
      (3/20000000) (1/500000)).2 ≠ some .lastValueExceedsRepRate :=
  claim_C9_last_value_unreachable.2.2 defaultPeriod (-1) _ _ _
    (by norm_num [defaultPeriod])

/-- C1 (amended): every validation failure of `_make_marx`'s pre-write
phase — wrong channel count, rep-rate overflow or domain error, dead time
below the minimum, and the seconds-domain per-channel constraint errors —
leaves the write trace empty: `write_reg` is never reached.  The claim's
universal form is refuted by `claim_C1_counterexample`: cycle-domain
re-validation of the shared charge window happens inside the write loop
and can fail after registers have been written. -/
theorem claim_C1_validation_before_writes (p : ℚ) (latch : Int)
    (chs : List (ℚ × ℚ)) (dt rr : ℚ) (e : MarxErr)
    (h : (makeMarx p latch chs dt rr).2 = some e)
    (he : e = .tooManyChannels ∨ e = .wrongChannelCount ∨ e = .mathDomain ∨
          e = .overflow ∨ e = .deadTimeTooShort ∨ e = .widthBelowClockPeriod ∨
          e = .lastValueExceedsRepRate ∨ e = .insufficientChargeTime ∨
          e = .startAfterStop) :
    (makeMarx p latch chs dt rr).1 = [] := by
  rcases hck : makeMarxChecked p latch chs dt rr with er | pr
  · have hm : makeMarx p latch chs dt rr = ([], some er) := by
      unfold makeMarx
      rw [hck]
    rw [hm]
  · have hm : makeMarx p latch chs dt rr = applyProgram pr := by
      unfold makeMarx
      rw [hck]
    rw [hm] at h ⊢
    obtain ⟨_, hrc0, hrc1, _⟩ := makeMarxChecked_ok hck
    rcases applyProgram_err hrc0 (by omega) h with ⟨hii, htr⟩ | h5
    · exact htr
    · exfalso
      rcases h5 with rfl | rfl | rfl | rfl | rfl <;> simp_all

theorem claim_C1_witness :
    (makeMarx defaultPeriod (-1) (List.replicate 10 ((0:ℚ), 0))
      (9/100000000) (1/1000000)).1 = [] :=
  claim_C1_validation_before_writes defaultPeriod (-1) _ _ _ .deadTimeTooShort
    (by with_unfolding_all rfl) (by tauto)

/-- C1 (counterexample): a `marx_sync`-shaped build whose charge window is
inverted (`dead_time = 320 ns > first/2`) passes the whole validation
phase, writes `io_init`, the rep rate and channel 1's pulse pair, and only
then fails `StopBeforeStartError` on the charge re-check: the build fails
with a non-empty write trace, refuting "if the build fails, write_reg is
never called". -/
theorem claim_C1_counterexample :
    makeMarx defaultPeriod (-1)
      (List.replicate 10 ((6:ℚ)/10000000, 1/1000000)) (4/12500000) (1/1000000)
      = ([(40, 1048575), (41, 125), (0, 75), (1, 125)], some .stopBeforeStart)
    ∧ ([(40, 1048575), (41, 125), (0, 75), (1, 125)] : List (Nat × Int)) ≠ [] :=
  ⟨by with_unfolding_all rfl, by simp⟩

/-- C5 (amended): `marx_sync(pulse_length=1µs, dead_time=150ns, rep_rate=2µs)`
over 10 channels succeeds and writes: io_init = 1048575 (all twenty bits 1 —
the source never clears the pulse bits), rep rate 250 cycles, ten identical
enabled pulse windows (125, 250) cycles = [1µs, 2µs], and the shared charge
window (19, 106) cycles — `charge_stop` is `first_cycles − dead_time_cycles`
(1µs quantized minus 150ns quantized), not `2µs − 150ns`. -/
theorem claim_C5_sync_scenario :
    marxSyncRun defaultPeriod (-1) (1/1000000) (3/20000000) (1/500000)
      10 none none
      = ([(40, 1048575), (41, 250),
          (0, 125), (1, 250), (2, 19), (3, 106),
          (4, 125), (5, 250), (6, 19), (7, 106),
          (8, 125), (9, 250), (10, 19), (11, 106),
          (12, 125), (13, 250), (14, 19), (15, 106),
          (16, 125), (17, 250), (18, 19), (19, 106),
          (20, 125), (21, 250), (22, 19), (23, 106),
          (24, 125), (25, 250), (26, 19), (27, 106),
          (28, 125), (29, 250), (30, 19), (31, 106),
          (32, 125), (33, 250), (34, 19), (35, 106),
          (36, 125), (37, 250), (38, 19), (39, 106)], none) := by
  with_unfolding_all rfl

/-- C5 (counterexample): in that scenario the io_init register is written
with 1048575 (all twenty bits 1), not a mask whose ten pulse bits are 0
(1023 with pulse bits high-order, 1047552 with pulse bits low-order), and
the charge stop written is 106 cycles whereas the claimed `2µs − 150ns`
quantizes to 231 cycles. -/
theorem claim_C5_counterexample :
    (marxSyncRun defaultPeriod (-1) (1/1000000) (3/20000000) (1/500000)
        10 none none).1.get? 0 = some (40, 1048575)
    ∧ (marxSyncRun defaultPeriod (-1) (1/1000000) (3/20000000) (1/500000)
        10 none none).1.get? 5 = some (3, 106)
    ∧ pyRound (((1:ℚ)/500000 - 3/20000000) / defaultPeriod) = 231
    ∧ (106 : Int) ≠ 231 ∧ (1048575 : Int) ≠ 1023 ∧ (1048575 : Int) ≠ 1047552 := by
  refine ⟨by with_unfolding_all rfl, by with_unfolding_all rfl,
          by with_unfolding_all rfl, by norm_num, by norm_num, by norm_num⟩

/-- C7 (amended): `marx_sync`, `marx_delta` and `marx_one` disable inactive
channels with the sentinel `(rep_rate + 2, rep_rate + 2)` in seconds, but
`marx_sequence` uses `(rep_rate * 2, rep_rate * 2)`; the builder records
every channel that fails the not-disabled test as the fixed cycle pair
`(rep_rate_cycles + 2, rep_rate_cycles + 2)` and leaves the whole io_init
list at 1, in particular marking every disabled channel's bit as logical 1. -/
theorem claim_C7_disabled_sentinels :
    (∀ (pl rr : ℚ) (nc : Nat) (db de : Option (List ℚ))
        (chsE : List (ℚ × ℚ)) (i : Nat),
        marxSyncChannels pl rr nc db de = .ok chsE → nc ≤ i → i < 10 →
        chsE.get? i = some (rr + 2, rr + 2))
    ∧ (∀ (sl rr : ℚ) (nc : Nat) (ch : Option ℚ) (chsE : List (ℚ × ℚ)) (i : Nat),
        marxDeltaChannels sl rr nc ch = .ok chsE → nc ≤ i → i < 10 →
        chsE.get? i = some (rr + 2, rr + 2))
    ∧ (∀ (pl rr : ℚ) (c : Int) (chsE : List (ℚ × ℚ)) (i : Nat),
        marxOneChannels pl rr c = .ok chsE → i < 10 → (i : Int) ≠ c - 1 →
        chsE.get? i = some (rr + 2, rr + 2))
    ∧ (∀ (pl rr : ℚ) (nc : Nat) (tb : Option ℚ) (chsE : List (ℚ × ℚ)) (i : Nat),
        marxSequenceChannels pl rr nc tb = .ok chsE → nc ≤ i → i < 10 →
        chsE.get? i = some (rr * 2, rr * 2))
    ∧ (∀ (p : ℚ) (latch : Int) (rr : ℚ) (rc : Int) (chs : List (ℚ × ℚ))
        (st : LoopState),
        processChannels p latch rr rc chs 0 (initState rr) = .ok st →
        st.ioInit = List.replicate 20 1 ∧
        ∀ i : Nat, ∀ o, chs.get? i = some o → ¬ enabledCond o rr →
          st.chans.get? i = some (rc + 2, rc + 2)) := by
  refine ⟨?_, ?_, ?_, ?_, ?_⟩
  · intro pl rr nc db de chsE i h hnc hi
    unfold marxSyncChannels at h
    split at h
    · exact Except.noConfusion h
    split at h
    · exact Except.noConfusion h
    split at h
    · exact Except.noConfusion h
    injection h with h1
    subst h1
    rw [List.get?_map, List.get?_range hi]
    simp only [Option.map_some']
    rw [if_neg (by omega)]
  · intro sl rr nc ch chsE i h hnc hi
    unfold marxDeltaChannels at h
    simp only [] at h
    split at h
    · exact Except.noConfusion h
    injection h with h1
    subst h1
    rw [List.get?_map, List.get?_range hi]
    simp only [Option.map_some']
    rw [if_neg (by omega)]
  · intro pl rr c chsE i h hi hne
    unfold marxOneChannels at h
    simp only [] at h
    split at h
    · injection h with h1
      subst h1
      rw [List.get?_map, List.get?_range hi]
      simp only [Option.map_some']
      rw [if_neg hne]
    · exact Except.noConfusion h
  · intro pl rr nc tb chsE i h hnc hi
    unfold marxSequenceChannels at h
    simp only [] at h
    split at h
    · exact Except.noConfusion h
    injection h with h1
    subst h1
    rw [List.get?_map, List.get?_range hi]
    simp only [Option.map_some']
    rw [if_neg (by omega)]
  · intro p latch rr rc chs st hps
    obtain ⟨hchans, hfirst, hio⟩ := processChannels_ok chs 0 (initState rr) st hps
    refine ⟨hio rfl, ?_⟩
    intro i o hgeto hno
    rw [hchans]
    simp only [initState, List.nil_append]
    rw [List.get?_map, hgeto]
    simp only [Option.map_some']
    rw [chanPair, if_neg hno]

/-- C7 (counterexample): `marx_sequence` with `rep_rate = 1` and five active
channels records channel 10 as `(2, 2) = (rep_rate * 2, rep_rate * 2)`,
which differs from the claimed sentinel `(rep_rate + 2, rep_rate + 2) = (3, 3)`. -/
theorem claim_C7_counterexample :
    ∃ chsE, marxSequenceChannels 1 1 5 none = .ok chsE ∧
      chsE.get? 9 = some ((2 : ℚ), (2 : ℚ)) ∧
      ((2 : ℚ), (2 : ℚ)) ≠ ((1 : ℚ) + 2, (1 : ℚ) + 2) :=
  ⟨_, by with_unfolding_all rfl, by with_unfolding_all rfl, by norm_num⟩

theorem claim_C7_witness :
    ([((0 : ℚ), (1 : ℚ)), (0, 1), (0, 1), (0, 1), (0, 1),
      (3, 3), (3, 3), (3, 3), (3, 3), (3, 3)] : List (ℚ × ℚ)).get? 7
      = some ((1 : ℚ) + 2, (1 : ℚ) + 2) :=
  claim_C7_disabled_sentinels.1 1 1 5 none none _ 7
    (by with_unfolding_all rfl) (by norm_num) (by norm_num)

theorem claim_C6_witness :
    (4 * 0 + 2, pyRound ((3/20000000 : ℚ) / defaultPeriod))
      ∈ (makeMarx defaultPeriod (-1)
          (List.replicate 10 ((1:ℚ)/1000000, 1/500000)) (3/20000000) (1/500000)).1 :=
  ((claim_C6_charge_window defaultPeriod (-1) _ _ _
      (by with_unfolding_all rfl)).1 0 (by norm_num)).1
